import Mathlib

/-!
Verification development for the C++ Unit Test Generator repository.

The Python modules under `scripts/` are shallowly embedded below:
pure string processing is translated to executable functions over
`List Char`, filesystem and subprocess effects are abstracted into
explicit inputs (directory trees, process outcomes, per-attempt backend
results), and Python exceptions are modelled with `Except`/`Option`.
Regular-expression matching is embedded as deterministic scanners that
implement the leftmost-match, greedy/lazy semantics of the concrete
patterns used by the source (all of which are backtracking-free up to
the explicit alternatives implemented here).
-/

/-! ## Basic Python string semantics (ASCII fragment) -/

/-- The brace and backtick characters, by code point. -/
def braceL : Char := Char.ofNat 123

def backtick : Char := Char.ofNat 96

/-- Python `\s` / `str.strip` whitespace, ASCII fragment:
space, tab, newline, carriage return, vertical tab, form feed. -/
def pyWs (c : Char) : Bool :=
  c = ' ' || c = '\t' || c = '\n' || c = '\r' || c = Char.ofNat 11 || c = Char.ofNat 12

/-- Python `\w` word characters, ASCII fragment. -/
def wordChar (c : Char) : Bool := c.isAlphanum || c = '_'

/-- Remove trailing `pyWs` characters (Python `str.rstrip`). -/
def rstrip : List Char → List Char
  | [] => []
  | c :: r =>
    match rstrip r with
    | [] => if pyWs c then [] else [c]
    | x :: t => c :: x :: t

/-- Python `str.strip`: drop leading and trailing whitespace. -/
def pyStrip (cs : List Char) : List Char := rstrip (cs.dropWhile pyWs)

/-- Python's substring containment (`pat in s`). -/
def containsSub : List Char → List Char → Bool
  | cs, pat =>
    pat.isPrefixOf cs ||
      match cs with
      | [] => false
      | _ :: r => containsSub r pat

/-- Python `str.split('\n')`: `splitLines [] = [[]]`, every `'\n'` starts a
new (possibly empty) piece. -/
def splitLines : List Char → List (List Char)
  | [] => [[]]
  | c :: r =>
    match splitLines r with
    | [] => [[c]]
    | h :: t => if c = '\n' then [] :: h :: t else (c :: h) :: t

/-- Numeric value of a digit string (as matched by `\d+`). -/
def natOfDigits (ds : List Char) : ℕ :=
  ds.foldl (fun a c => a * 10 + (c.toNat - 48)) 0

/-- `pathlib.Path(name).suffix` index helper: position of the last `'.'`. -/
def lastDotIdx : List Char → Option ℕ
  | [] => none
  | c :: r =>
    match lastDotIdx r with
    | some j => some (j + 1)
    | none => if c = '.' then some (0 : ℕ) else none

/-- `pathlib.Path` suffix of a file name: the final `".ext"` part, empty
unless the last dot is neither the first nor the last character. -/
def pySuffix (name : List Char) : List Char :=
  match lastDotIdx name with
  | some i => if 0 < i ∧ i + 1 < name.length then name.drop i else []
  | none => []

/-- `pathlib.Path` stem of a file name: the name with `pySuffix` removed. -/
def pyStem (name : List Char) : List Char :=
  match lastDotIdx name with
  | some i => if 0 < i ∧ i + 1 < name.length then name.take i else name
  | none => name

/-- Final path component (the part after the last `'/'`). -/
def baseName (cs : List Char) : List Char :=
  ((cs.reverse.takeWhile (fun c => !(c = '/'))).reverse)

/-! ## CoverageAnalyzer (`scripts/coverage_analyzer.py`) -/

namespace CoverageAnalyzer

/-- One gcov unit line `Lines executed:P% of N`, with the percentage kept
as the matched decimal digits: the value is `pnum / 10 ^ plen`. -/
structure CovUnit where
  pnum : ℕ
  plen : ℕ
  count : ℕ
deriving DecidableEq, Repr

/-- The reported percentage of a unit, as an exact rational. -/
def CovUnit.percent (u : CovUnit) : ℚ := (u.pnum : ℚ) / (10 ^ u.plen : ℚ)

def linesExecutedLit : List Char := "Lines executed:".data

def ofLit : List Char := " of ".data

/-- Match `Lines executed:(\d+\.\d+)% of (\d+)` anchored at the start of
`cs` (maximal-munch digit runs, which matches the regex's semantics here
because digits, `'.'`, `'%'` and `' '` are pairwise disjoint). -/
def matchCovAt (cs : List Char) : Option CovUnit :=
  if linesExecutedLit.isPrefixOf cs then
    let r1 := cs.drop linesExecutedLit.length
    let d1 := r1.takeWhile Char.isDigit
    if d1.isEmpty then none
    else
      match r1.drop d1.length with
      | '.' :: r2 =>
        let d2 := r2.takeWhile Char.isDigit
        if d2.isEmpty then none
        else
          match r2.drop d2.length with
          | '%' :: r3 =>
            if ofLit.isPrefixOf r3 then
              let r4 := r3.drop ofLit.length
              let d3 := r4.takeWhile Char.isDigit
              if d3.isEmpty then none
              else some ⟨natOfDigits (d1 ++ d2), d2.length, natOfDigits d3⟩
            else none
          | _ => none
      | _ => none
  else none

/-- `re.search` of the unit pattern: leftmost match wins. -/
def searchCov : List Char → Option CovUnit
  | [] => none
  | c :: r =>
    match matchCovAt (c :: r) with
    | some u => some u
    | none => searchCov r

/-- Per-line behaviour of `_parse_coverage_data`'s loop body:
`'Lines executed:' in line` guard, then `re.search`. -/
def lineUnit (line : List Char) : Option CovUnit :=
  if containsSub line linesExecutedLit then searchCov line else none

structure CoverageReport where
  error : Option String
  line_coverage : ℚ
  branch_coverage : ℚ
  function_coverage : ℚ
  files : List String
deriving DecidableEq

/-- The zeroed report `_parse_coverage_data` starts from. -/
def baseReport : CoverageReport := ⟨none, 0, 0, 0, []⟩

/-- Loop body of `_parse_coverage_data`: accumulate
`(total_lines, covered_lines)`; `int(count * percent / 100)` truncates a
non-negative value, i.e. takes the floor. -/
def covStep (acc : ℕ × ℕ) (line : List Char) : ℕ × ℕ :=
  match lineUnit line with
  | some u => (acc.1 + u.count, acc.2 + (Int.floor ((u.count : ℚ) * u.percent / 100)).toNat)
  | none => acc

/-- `CoverageAnalyzer._parse_coverage_data` on the concatenated gcov
output (the `source_dir` argument is unused by the source). -/
def parse_coverage_data (coverage_output : String) : CoverageReport :=
  if coverage_output.data.isEmpty then baseReport
  else
    let tc := (splitLines coverage_output.data).foldl covStep (0, 0)
    if 0 < tc.1 then
      { baseReport with line_coverage := ((tc.2 : ℚ) / (tc.1 : ℚ)) * 100 }
    else baseReport

/-- `CoverageAnalyzer.analyze`, with the filesystem walk abstracted into
`has_coverage_data` (whether any `.gcda`/`.gcno` file exists under the
build directory) and the gcov invocations abstracted into their
concatenated textual output. -/
def analyze (has_coverage_data : Bool) (coverage_output : String) : CoverageReport :=
  if !has_coverage_data then
    ⟨some "No coverage data found", 0, 0, 0, []⟩
  else
    parse_coverage_data coverage_output

/-- All unit lines recognized in a report, in order. -/
def parsedUnits (s : String) : List CovUnit :=
  (splitLines s.data).filterMap lineUnit

/-- Sum over units of the reported line count `N`. -/
def totalLines (s : String) : ℕ :=
  ((parsedUnits s).map CovUnit.count).sum

/-- Sum over units of `floor (N * P / 100)`, the per-unit reconstructed
covered-line count. -/
def coveredLines (s : String) : ℕ :=
  ((parsedUnits s).map
    (fun u => (Int.floor ((u.count : ℚ) * u.percent / 100)).toNat)).sum

end CoverageAnalyzer

/-! ## LLMClient (`scripts/llm_client.py`) -/

namespace LLMClient

/-- Outcome of one backend call: a returned string, or a raised
exception carrying its message. -/
inductive AttemptOutcome where
  | ok (text : String)
  | exn (msg : String)
deriving DecidableEq

def AttemptOutcome.isExn : AttemptOutcome → Bool
  | .ok _ => false
  | .exn _ => true

def supportedProvider (p : String) : Bool :=
  p == "ollama" || p == "openai" || p == "github"

/-- The dispatch in the body of the retry loop: a supported provider tag
runs the corresponding backend; an unsupported tag raises
`ValueError(f"Unsupported provider: ...")` — which, like any backend
exception, is raised inside the `try` block. -/
def dispatchOnce (provider : String) (backendResult : AttemptOutcome) : AttemptOutcome :=
  if supportedProvider provider then backendResult
  else .exn ("Unsupported provider: " ++ provider)

/-- The retry loop of `LLMClient.generate`: `remaining` iterations left,
`attempt` the current 0-based attempt index.  Every exception of the
body (backend failure or unsupported provider) is caught by the
`except Exception` handler and the loop continues; the second component
counts the dispatch attempts actually made. -/
def generateLoop (provider : String) (backend : ℕ → AttemptOutcome) :
    ℕ → ℕ → Option String × ℕ
  | 0, _ => (none, 0)
  | remaining + 1, attempt =>
    match dispatchOnce provider (backend attempt) with
    | .ok text => (some text, 1)
    | .exn _ =>
      let r := generateLoop provider backend remaining (attempt + 1)
      (r.1, r.2 + 1)

/-- `LLMClient.generate`.  The `Except` layer records whether anything
propagates to the caller: since the whole loop body is guarded by
`except Exception`, the function always returns normally. -/
def generate (provider : String) (backend : ℕ → AttemptOutcome)
    (max_retries : ℕ) : Except String (Option String) :=
  Except.ok (generateLoop provider backend max_retries 0).1

/-- Number of backend dispatch attempts made by a `generate` call. -/
def attemptsMade (provider : String) (backend : ℕ → AttemptOutcome)
    (max_retries : ℕ) : ℕ :=
  (generateLoop provider backend max_retries 0).2

end LLMClient

/-! ## BuildManager (`scripts/build_manager.py`) -/

namespace BuildManager

/-- Outcome of a `subprocess.run` invocation, as seen by the caller:
normal completion with an exit code, `TimeoutExpired`,
`FileNotFoundError` (tool not installed), or some other exception. -/
inductive ProcOutcome where
  | completed (returncode : ℤ) (stdout stderr : String)
  | timedOut
  | fileNotFound (msg : String)
  | raisedOther (msg : String)

/-- The result dictionaries built by `BuildManager`; absent keys are
`none`. -/
structure BuildResult where
  success : Bool
  returncode : Option ℤ := none
  stdout : Option String := none
  stderr : Option String := none
  error : Option String := none
  log : String
deriving DecidableEq

/-- `BuildManager._run_cmake_configure`, as a function of the process
outcome.  Timeout and missing tool have dedicated handlers. -/
def run_cmake_configure (o : ProcOutcome) : BuildResult :=
  match o with
  | .completed rc out err =>
    { success := rc == 0, returncode := some rc, stdout := some out, stderr := some err,
      log := "CMAKE STDOUT:\n" ++ out ++ "\n\nCMAKE STDERR:\n" ++ err }
  | .timedOut =>
    { success := false, error := some "CMake configuration timeout",
      log := "CMake configuration timed out after 120 seconds" }
  | .fileNotFound _ =>
    { success := false, error := some "CMake not found",
      log := "CMake executable not found. Please install CMake." }
  | .raisedOther e =>
    { success := false, error := some e, log := "CMake configuration failed: " ++ e }

/-- `BuildManager._run_build`.  There is no dedicated
`FileNotFoundError` handler here: a missing tool falls into the generic
`except Exception` branch, carrying the exception's message. -/
def run_build (o : ProcOutcome) : BuildResult :=
  match o with
  | .completed rc out err =>
    { success := rc == 0, returncode := some rc, stdout := some out, stderr := some err,
      log := "BUILD STDOUT:\n" ++ out ++ "\n\nBUILD STDERR:\n" ++ err }
  | .timedOut =>
    { success := false, error := some "Build timeout",
      log := "Build timed out after 300 seconds" }
  | .fileNotFound e =>
    { success := false, error := some e, log := "Build failed: " ++ e }
  | .raisedOther e =>
    { success := false, error := some e, log := "Build failed: " ++ e }

end BuildManager

/-! ## TestGenerator (`scripts/test_generator.py`) -/

namespace TestGenerator

def ticks3 : List Char := [backtick, backtick, backtick]

def cppTag : List Char := "cpp".data

def cppPlusTag : List Char := ['c', '+', '+']

/-- Whether `\s*` followed by a closing fence matches at the start of
`cs` (whitespace is never a backtick, so maximal munch is exact). -/
def closeHere (cs : List Char) : Bool := ticks3.isPrefixOf (cs.dropWhile pyWs)

/-- The lazy group `(.*?)` of `r'TICKS(?:cpp|c\+\+)?\s*(.*?)\s*TICKS'`:
shortest capture whose remainder matches `\s*` and a closing fence. -/
def lazyCapture (cs : List Char) : Option (List Char) :=
  if closeHere cs then some []
  else
    match cs with
    | [] => none
    | c :: r => (lazyCapture r).map (fun t => c :: t)

/-- Match the fenced-block pattern anchored at the start of `cs`,
returning the captured group. -/
def fencedMatchAt (cs : List Char) : Option (List Char) :=
  if ticks3.isPrefixOf cs then
    let s1 := cs.drop 3
    let s2 :=
      if cppTag.isPrefixOf s1 then s1.drop 3
      else if cppPlusTag.isPrefixOf s1 then s1.drop 3
      else s1
    lazyCapture (s2.dropWhile pyWs)
  else none

/-- Leftmost match of the fenced-block pattern (`re.findall`'s first
match). -/
def fencedSearch : List Char → Option (List Char)
  | [] => none
  | c :: r =>
    match fencedMatchAt (c :: r) with
    | some cap => some cap
    | none => fencedSearch r

/-- `TestGenerator._extract_cpp_code`: first fenced block's capture,
stripped; else the whole response, stripped. -/
def extract_cpp_code (response : String) : String :=
  match fencedSearch response.data with
  | some cap => String.mk (pyStrip cap)
  | none => String.mk (pyStrip response.data)

/-- `f"test_{Path(cpp_file).stem}.cpp"`. -/
def test_filename (cpp_file : String) : String :=
  "test_" ++ String.mk (pyStem (baseName cpp_file.data)) ++ ".cpp"

/-- The `generated_tests` collection built by `generate_tests`: one
`(filename, code)` entry per source file whose generation produced a
result; files for which `_generate_initial_test` yields `None` are
skipped. -/
def generatedTests (cpp_files : List String) (gen : String → Option String) :
    List (String × String) :=
  cpp_files.filterMap (fun f => (gen f).map (fun code => (test_filename f, code)))

/-- `TestGenerator.generate_tests`, with the directory scan abstracted
into the `cpp_files` list and per-file generation into `gen`. -/
def generate_tests (cpp_files : List String) (gen : String → Option String) : Bool :=
  if cpp_files.isEmpty then false
  else if (generatedTests cpp_files gen).isEmpty then false
  else true

/-- The process exit code of `main`: 1 if the input directory does not
exist, else 0 iff `generate_tests` returned `True`. -/
def mainExit (input_is_dir : Bool) (cpp_files : List String)
    (gen : String → Option String) : ℕ :=
  if !input_is_dir then 1
  else if generate_tests cpp_files gen then 0 else 1

end TestGenerator

/-! ## CppAnalyzer (`scripts/cpp_analyzer.py`) -/

namespace CppAnalyzer

def cpp_extensions : List String := [".cpp", ".cc", ".cxx", ".c++"]

def excludedDirs : List String := ["build", "cmake-build-debug", "cmake-build-release", ".git"]

/-- A directory tree, the input of the abstracted `os.walk`. -/
inductive Entry where
  | file (name : String)
  | dir (name : String) (children : List Entry)

/-- Whether a file name has a recognized C++ source suffix. -/
def isCppFile (name : String) : Bool :=
  decide (String.mk (pySuffix name.data) ∈ cpp_extensions)

/-- The collection loop of `find_cpp_files`: gather files with a
recognized suffix, pruning excluded directory names from the walk. -/
def collectCpp (base : String) : List Entry → List String
  | [] => []
  | .file n :: rest =>
    (if isCppFile n then [base ++ "/" ++ n] else []) ++ collectCpp base rest
  | .dir n cs :: rest =>
    (if n ∈ excludedDirs then [] else collectCpp (base ++ "/" ++ n) cs) ++
      collectCpp base rest

/-- `CppAnalyzer.find_cpp_files`: collect, then `sorted(...)`. -/
def find_cpp_files (directory : String) (tree : List Entry) : List String :=
  (collectCpp directory tree).mergeSort (fun a b => decide (a ≤ b))

/-- Specification-side catalogue of every file in the tree: full path,
bare name, and whether some ancestor directory has an excluded name. -/
structure CatEntry where
  path : String
  fname : String
  excluded : Bool
deriving DecidableEq

def catFiles (base : String) (d : Bool) : List Entry → List CatEntry
  | [] => []
  | .file n :: rest => ⟨base ++ "/" ++ n, n, d⟩ :: catFiles base d rest
  | .dir n cs :: rest =>
    catFiles (base ++ "/" ++ n) (d || decide (n ∈ excludedDirs)) cs ++ catFiles base d rest

/-- The paths the specification expects `find_cpp_files` to return:
recognized suffix, no excluded ancestor. -/
def wantedPath (e : CatEntry) : Option String :=
  if e.excluded = false ∧ isCppFile e.fname then some e.path else none

end CppAnalyzer

namespace CppAnalyzer

def includeLit : List Char := "#include".data

def namespaceLit : List Char := "namespace".data

def classLit : List Char := "class".data

def publicLit : List Char := "public".data

def privateLit : List Char := "private".data

def protectedLit : List Char := "protected".data

def constLit : List Char := "const".data

def overrideLit : List Char := "override".data

def finalLit : List Char := "final".data

def noexceptLit : List Char := "noexcept".data

/-- Match `#include\s*[<"]([^>"]+)[>"]` anchored at the start of `cs`,
returning the capture and the remainder after the whole match. -/
def matchIncludeAt (cs : List Char) : Option (List Char × List Char) :=
  if includeLit.isPrefixOf cs then
    match (cs.drop includeLit.length).dropWhile pyWs with
    | [] => none
    | c :: r2 =>
      if c = '<' || c = '"' then
        let cap := r2.takeWhile (fun d => !(d = '>' || d = '"'))
        if cap.isEmpty then none
        else
          match r2.drop cap.length with
          | d :: r4 => if d = '>' || d = '"' then some (cap, r4) else none
          | [] => none
      else none
  else none

/-- `re.findall` scan for includes: leftmost, non-overlapping.  The fuel
argument (always initialised to more than the text length) only
witnesses termination; every successful match consumes at least one
character. -/
def scanIncludes : ℕ → List Char → List (List Char)
  | 0, _ => []
  | _, [] => []
  | fuel + 1, c :: r =>
    match matchIncludeAt (c :: r) with
    | some (cap, rest) => cap :: scanIncludes fuel rest
    | none => scanIncludes fuel r

/-- `CppAnalyzer._extract_includes`; `list(set(...))` is modelled by
`List.dedup` (Python's set iteration order is unspecified). -/
def extract_includes (content : String) : List String :=
  ((scanIncludes (content.data.length + 1) content.data).map String.mk).dedup

/-- Match `namespace\s+(\w+)\s*BRACE` anchored at the start of `cs`. -/
def matchNamespaceAt (cs : List Char) : Option (List Char × List Char) :=
  if namespaceLit.isPrefixOf cs then
    let r1 := cs.drop namespaceLit.length
    if (r1.takeWhile pyWs).isEmpty then none
    else
      let r2 := r1.dropWhile pyWs
      let nm := r2.takeWhile wordChar
      if nm.isEmpty then none
      else
        match (r2.drop nm.length).dropWhile pyWs with
        | b :: r4 => if b = braceL then some (nm, r4) else none
        | [] => none
  else none

def scanNamespaces : ℕ → List Char → List (List Char)
  | 0, _ => []
  | _, [] => []
  | fuel + 1, c :: r =>
    match matchNamespaceAt (c :: r) with
    | some (nm, rest) => nm :: scanNamespaces fuel rest
    | none => scanNamespaces fuel r

/-- `CppAnalyzer._extract_namespaces`. -/
def extract_namespaces (content : String) : List String :=
  ((scanNamespaces (content.data.length + 1) content.data).map String.mk).dedup

/-- `\s*BRACE` at the start of `t`: the final part of the class and
function patterns; returns the remainder after the brace. -/
def closeBrace (t : List Char) : Option (List Char) :=
  match t.dropWhile pyWs with
  | b :: r => if b = braceL then some r else none
  | [] => none

/-- The optional base-clause group
`(?:\s*:\s*(?:public|private|protected)\s+[\w:]+)?\s*BRACE` of the class
pattern, tried with the group first (greedy `?`), then without. -/
def classTail (t : List Char) : Option (List Char) :=
  let withBase : Option (List Char) :=
    match t.dropWhile pyWs with
    | ':' :: t2 =>
      let t3 := t2.dropWhile pyWs
      let specLen : Option ℕ :=
        if publicLit.isPrefixOf t3 then some publicLit.length
        else if privateLit.isPrefixOf t3 then some privateLit.length
        else if protectedLit.isPrefixOf t3 then some protectedLit.length
        else none
      match specLen with
      | some k =>
        let t4 := t3.drop k
        if (t4.takeWhile pyWs).isEmpty then none
        else
          let t5 := t4.dropWhile pyWs
          let baseId := t5.takeWhile (fun d => wordChar d || d = ':')
          if baseId.isEmpty then none
          else closeBrace (t5.drop baseId.length)
      | none => none
    | _ => none
  match withBase with
  | some r => some r
  | none => closeBrace t

/-- Match
`class\s+(\w+)(?:\s*:\s*(?:public|private|protected)\s+[\w:]+)?\s*BRACE`
anchored at the start of `cs`, returning the class name and the
remainder after the match. -/
def matchClassAt (cs : List Char) : Option (List Char × List Char) :=
  if classLit.isPrefixOf cs then
    let r1 := cs.drop classLit.length
    if (r1.takeWhile pyWs).isEmpty then none
    else
      let r2 := r1.dropWhile pyWs
      let nm := r2.takeWhile wordChar
      if nm.isEmpty then none
      else
        match classTail (r2.drop nm.length) with
        | some rest => some (nm, rest)
        | none => none
  else none

structure ClassInfo where
  name : String
  line : ℕ
deriving DecidableEq

/-- `re.finditer` scan for classes, carrying the count `nl` of newlines
seen before the current position (`'line'` is that count plus one). -/
def scanClasses : ℕ → ℕ → List Char → List ClassInfo
  | 0, _, _ => []
  | _, _, [] => []
  | fuel + 1, nl, c :: r =>
    match matchClassAt (c :: r) with
    | some (nm, rest) =>
      let consumed := (c :: r).take ((c :: r).length - rest.length)
      ⟨String.mk nm, nl + 1⟩ :: scanClasses fuel (nl + consumed.count '\n') rest
    | none => scanClasses fuel (if c = '\n' then nl + 1 else nl) r

/-- `CppAnalyzer._extract_classes`. -/
def extract_classes (content : String) : List ClassInfo :=
  scanClasses (content.data.length + 1) 0 content.data

/-- One optional keyword group `(?:KW\s*)?` of the function pattern:
take the keyword (greedy), fall back to the continuation without it. -/
def optKw (lit : List Char) (k : List Char → Option (List Char))
    (t : List Char) : Option (List Char) :=
  match (if lit.isPrefixOf t then k ((t.drop lit.length).dropWhile pyWs) else none) with
  | some r => some r
  | none => k t

/-- The optional trailing-return group `(?:\s*->\s*\w+)?`. -/
def optArrow (k : List Char → Option (List Char)) (t : List Char) :
    Option (List Char) :=
  match
    (match t.dropWhile pyWs with
     | '-' :: '>' :: t2 =>
       let t3 := t2.dropWhile pyWs
       let w := t3.takeWhile wordChar
       if w.isEmpty then none else k (t3.drop w.length)
     | _ => none) with
  | some r => some r
  | none => k t

/-- The suffix chain of the function pattern after the closing paren:
`\s*(?:const\s*)?(?:override\s*)?(?:final\s*)?(?:noexcept\s*)?(?:\s*->\s*\w+)?\s*BRACE`. -/
def funTail (t : List Char) : Option (List Char) :=
  optKw constLit
    (optKw overrideLit
      (optKw finalLit
        (optKw noexceptLit (optArrow closeBrace)))) (t.dropWhile pyWs)

/-- `\s*\(\s*([^)]*)\s*\)` followed by `funTail`, anchored after the
function name: returns the raw parameter capture and the remainder. -/
def paramsAndTail (t : List Char) : Option (List Char × List Char) :=
  match t.dropWhile pyWs with
  | '(' :: r1 =>
    let r2 := r1.dropWhile pyWs
    let ps := r2.takeWhile (fun d => !(d = ')'))
    match r2.drop ps.length with
    | ')' :: r3 => (funTail r3).map (fun rest => (ps, rest))
    | _ => none
  | _ => none

structure FunMatch where
  retUnit : Option (List Char)
  name : List Char
  params : List Char
  rest : List Char

/-- One unit of the leading-qualifier group `(\w+\s+)`: word run then
whitespace run, both non-empty; the capture keeps the whitespace, as
Python's group 1 does. -/
def unitStep (t : List Char) : Option (List Char × List Char) :=
  let w := t.takeWhile wordChar
  if w.isEmpty then none
  else
    let r1 := t.drop w.length
    let s := r1.takeWhile pyWs
    if s.isEmpty then none
    else some (w ++ s, r1.drop s.length)

/-- Try the function name `(\w+)` and everything after it at `t`, with
`lastU` the last qualifier unit taken so far (regex group 1). -/
def tryName (lastU : Option (List Char)) (t : List Char) : Option FunMatch :=
  let nm := t.takeWhile wordChar
  if nm.isEmpty then none
  else
    match paramsAndTail (t.drop nm.length) with
    | some (ps, rest) => some ⟨lastU, nm, ps, rest⟩
    | none => none

/-- Greedy star `(\w+\s+)*` with backtracking: prefer taking one more
unit; if everything deeper fails, try the name at the current point.
The fuel (initialised to the text length) only witnesses termination:
each unit consumes at least two characters. -/
def funFrom : ℕ → Option (List Char) → List Char → Option FunMatch
  | 0, lastU, t => tryName lastU t
  | fuel + 1, lastU, t =>
    match unitStep t with
    | some (u, t2) =>
      match funFrom fuel (some u) t2 with
      | some m => some m
      | none => tryName lastU t
    | none => tryName lastU t

/-- Match the function pattern anchored at the start of `cs`. -/
def matchFunAt (cs : List Char) : Option FunMatch :=
  funFrom cs.length none cs

structure FunctionInfo where
  name : String
  parameters : String
  return_type : String
  line : ℕ
deriving DecidableEq

/-- Control-flow keywords excluded from the function-name position. -/
def funKeywords : List String :=
  ["if", "for", "while", "switch", "catch", "class", "struct", "enum"]

def scanFunctions : ℕ → ℕ → List Char → List (FunMatch × ℕ)
  | 0, _, _ => []
  | _, _, [] => []
  | fuel + 1, nl, c :: r =>
    match matchFunAt (c :: r) with
    | some m =>
      let consumed := (c :: r).take ((c :: r).length - m.rest.length)
      (m, nl + 1) :: scanFunctions fuel (nl + consumed.count '\n') m.rest
    | none => scanFunctions fuel (if c = '\n' then nl + 1 else nl) r

/-- `CppAnalyzer._extract_functions`: scan all matches, skip denylisted
names, strip the parameter text and the qualifier unit (`'auto'` when
there were no qualifiers). -/
def extract_functions (content : String) : List FunctionInfo :=
  (scanFunctions (content.data.length + 1) 0 content.data).filterMap
    (fun p =>
      if String.mk p.1.name ∈ funKeywords then none
      else
        some ⟨String.mk p.1.name, String.mk (pyStrip p.1.params),
          (match p.1.retUnit with
           | some u => String.mk (pyStrip u)
           | none => "auto"), p.2⟩)

/-- The `SourceUnit` dictionary returned by `analyze_file`. -/
structure SourceUnit where
  file_path : String
  error : Option String
  functions : List FunctionInfo
  classes : List ClassInfo
  includes : List String
  namespaces : List String
deriving DecidableEq

/-- `CppAnalyzer.analyze_file`, with the file read abstracted into its
outcome: decoded content (`errors='ignore'` drops invalid bytes rather
than failing) or a raised exception's message.  The function is total:
analysis never raises to the caller. -/
def analyze_file (file_path : String) (readResult : Except String String) : SourceUnit :=
  match readResult with
  | .ok content =>
    ⟨file_path, none, extract_functions content, extract_classes content,
      extract_includes content, extract_namespaces content⟩
  | .error e => ⟨file_path, some e, [], [], [], []⟩

end CppAnalyzer

/-! ## Theorems -/

open CoverageAnalyzer LLMClient BuildManager TestGenerator CppAnalyzer

/-- Helper for C3/C4: when every dispatch in the window raises, the
retry loop returns `None` after exactly `n` attempts. -/
theorem generateLoop_allExn (provider : String) (backend : ℕ → AttemptOutcome) :
    ∀ (n start : ℕ),
      (∀ i, start ≤ i → i < start + n →
        (dispatchOnce provider (backend i)).isExn = true) →
      generateLoop provider backend n start = (none, n) := by
  intro n
  induction n with
  | zero => intro start _; rfl
  | succ m ih =>
    intro start h
    have h0 : (dispatchOnce provider (backend start)).isExn = true :=
      h start le_rfl (by omega)
    unfold generateLoop
    cases hd : dispatchOnce provider (backend start) with
    | ok t => rw [hd] at h0; simp [AttemptOutcome.isExn] at h0
    | exn e =>
      have hrec := ih (start + 1) (fun i h1 h2 => h i (by omega) (by omega))
      simp [hrec]

/-- C3: if every backend attempt fails, `LLMClient.generate` returns
`None` without raising, and the number of backend attempts made equals
the configured `max_retries`. -/
theorem generate_returns_none_after_max_retries
    (provider : String) (backend : ℕ → AttemptOutcome) (max_retries : ℕ)
    (h : ∀ i, i < max_retries → (dispatchOnce provider (backend i)).isExn = true) :
    generate provider backend max_retries = Except.ok none ∧
      attemptsMade provider backend max_retries = max_retries := by
  have hl := generateLoop_allExn provider backend max_retries 0
    (fun i _ h2 => h i (by omega))
  constructor
  · unfold generate; rw [hl]
  · unfold attemptsMade; rw [hl]

/-- Witness for C3 at a concrete failing backend. -/
theorem generate_returns_none_after_max_retries_witness :
    generate "ollama" (fun _ => AttemptOutcome.exn "connection refused") 3 =
        Except.ok none ∧
      attemptsMade "ollama" (fun _ => AttemptOutcome.exn "connection refused") 3 = 3 :=
  generate_returns_none_after_max_retries "ollama" _ 3 (by decide)

/-- C4 counterexample: with an unsupported provider tag and a backend
that would answer perfectly, `generate` does not raise to the caller —
it returns `None` (the `ValueError` is raised inside the `try` block
and caught by its own `except Exception` handler). -/
theorem unsupported_provider_does_not_raise_cex :
    generate "anthropic" (fun _ => AttemptOutcome.ok "hello") 3 = Except.ok none ∧
      attemptsMade "anthropic" (fun _ => AttemptOutcome.ok "hello") 3 = 3 := by
  constructor <;> rfl

/-- C4 (amended): an unsupported provider tag is caught by the retry
loop's exception handler like any backend failure: `generate` makes
`max_retries` dispatch attempts and returns `None` to the caller
instead of raising. -/
theorem unsupported_provider_caught
    (provider : String) (backend : ℕ → AttemptOutcome) (max_retries : ℕ)
    (h : supportedProvider provider = false) :
    generate provider backend max_retries = Except.ok none ∧
      attemptsMade provider backend max_retries = max_retries := by
  apply generate_returns_none_after_max_retries
  intro i _
  unfold dispatchOnce
  rw [h]
  simp [AttemptOutcome.isExn]

/-- Witness for the amended C4. -/
theorem unsupported_provider_caught_witness :
    generate "grok" (fun i => AttemptOutcome.ok (toString i)) 5 = Except.ok none ∧
      attemptsMade "grok" (fun i => AttemptOutcome.ok (toString i)) 5 = 5 :=
  unsupported_provider_caught "grok" _ 5 (by decide)

/-- C10: every report produced by `CoverageAnalyzer.analyze` has zero
branch coverage, zero function coverage and an empty per-file list:
only the aggregate line coverage is ever computed. -/
theorem analyze_only_line_coverage (has_coverage_data : Bool) (out : String) :
    (analyze has_coverage_data out).branch_coverage = 0 ∧
      (analyze has_coverage_data out).function_coverage = 0 ∧
      (analyze has_coverage_data out).files = [] := by
  cases has_coverage_data with
  | false => simp [analyze]
  | true =>
    simp only [analyze, parse_coverage_data, Bool.not_true, Bool.false_eq_true,
      if_false]
    split
    · simp [baseReport]
    · split <;> simp [baseReport]

/-- C2: the batch succeeds iff at least one test was generated; a file
whose generation yields no result is skipped without aborting the
batch; the process exits 0 exactly when the run generated a test, and 1
otherwise. -/
theorem generate_tests_success_iff (input_is_dir : Bool)
    (cpp_files : List String) (gen : String → Option String) :
    (generate_tests cpp_files gen = true ↔ generatedTests cpp_files gen ≠ []) ∧
      (∀ f rest, gen f = none →
        generatedTests (f :: rest) gen = generatedTests rest gen) ∧
      (mainExit input_is_dir cpp_files gen = 0 ↔
        (if input_is_dir then generatedTests cpp_files gen else []) ≠ []) ∧
      (mainExit input_is_dir cpp_files gen = 0 ∨
        mainExit input_is_dir cpp_files gen = 1) := by
  have hiff : generate_tests cpp_files gen = true ↔ generatedTests cpp_files gen ≠ [] := by
    unfold generate_tests
    by_cases he : cpp_files.isEmpty
    · have : generatedTests cpp_files gen = [] := by
        rw [List.isEmpty_iff] at he
        simp [generatedTests, he]
      simp [he, this]
    · simp only [he, if_false]
      by_cases hg : (generatedTests cpp_files gen).isEmpty
      · rw [List.isEmpty_iff] at hg; simp [hg]
      · simp only [List.isEmpty_iff] at hg
        simp [List.isEmpty_iff, hg]
  refine ⟨hiff, ?_, ?_, ?_⟩
  · intro f rest hf
    simp [generatedTests, hf]
  · cases input_is_dir with
    | false => simp [mainExit]
    | true =>
      simp only [mainExit, Bool.not_true, Bool.false_eq_true, if_false, if_true]
      constructor
      · intro h0
        by_cases hg : generate_tests cpp_files gen = true
        · simpa using hiff.mp hg
        · simp [hg] at h0
      · intro hne
        simp [hiff.mpr (by simpa using hne)]
  · unfold mainExit
    split
    · right; rfl
    · split
      · left; rfl
      · right; rfl

/-- Witness for C2 at a concrete batch: one file fails generation and
is skipped, the other succeeds, the run exits 0. -/
theorem generate_tests_success_iff_witness :
    (fun f => if f = "a/bad.cpp" then (none : Option String) else some "TEST")
        "a/bad.cpp" = none ∧
      generatedTests ["a/bad.cpp", "b/good.cpp"]
          (fun f => if f = "a/bad.cpp" then none else some "TEST") =
        generatedTests ["b/good.cpp"]
          (fun f => if f = "a/bad.cpp" then none else some "TEST") ∧
      mainExit true ["a/bad.cpp", "b/good.cpp"]
          (fun f => if f = "a/bad.cpp" then none else some "TEST") = 0 := by
  refine ⟨by simp, ?_, ?_⟩
  · exact (generate_tests_success_iff true ["a/bad.cpp", "b/good.cpp"] _).2.1
      "a/bad.cpp" ["b/good.cpp"] (by simp)
  · exact (generate_tests_success_iff true ["a/bad.cpp", "b/good.cpp"] _).2.2.1.mpr
      (by decide)

/-- C9: `CppAnalyzer.analyze_file` is a total function of the read
outcome (analysis never raises): an unreadable file yields a
`SourceUnit` carrying the exception message and four empty extraction
lists, and a readable file yields all four extraction lists with no
error marker. -/
theorem analyze_file_total_spec (p : String) (r : Except String String) :
    (∀ e, r = .error e →
      analyze_file p r = ⟨p, some e, [], [], [], []⟩) ∧
      (∀ content, r = .ok content →
        analyze_file p r = ⟨p, none, extract_functions content,
          extract_classes content, extract_includes content,
          extract_namespaces content⟩) := by
  constructor
  · intro e he; subst he; rfl
  · intro content hc; subst hc; rfl

/-- Witness for C9: an unreadable file and a readable one-liner. -/
theorem analyze_file_total_spec_witness :
    analyze_file "missing.cpp" (.error "Errno 2 No such file or directory") =
        ⟨"missing.cpp", some "Errno 2 No such file or directory", [], [], [], []⟩ ∧
      (analyze_file "ok.cpp" (.ok "#include <vector>\n")).error = none := by
  constructor
  · exact (analyze_file_total_spec "missing.cpp" _).1 _ rfl
  · rw [(analyze_file_total_spec "ok.cpp" _).2 "#include <vector>\n" rfl]

/-- C8: for both the configure step and the build step, a killed
timeout produces a failure whose error classification differs from a
nonzero-exit failure (which carries no error marker at all) and from a
missing build tool. -/
theorem build_timeout_classification (rc : ℤ) (out err m : String)
    (hrc : rc ≠ 0) (hm : m ≠ "Build timeout") :
    ((run_cmake_configure .timedOut).success = false ∧
      (run_cmake_configure .timedOut).error = some "CMake configuration timeout" ∧
      (run_cmake_configure (.completed rc out err)).success = false ∧
      (run_cmake_configure (.completed rc out err)).error = none ∧
      (run_cmake_configure (.fileNotFound m)).error = some "CMake not found" ∧
      (run_cmake_configure .timedOut).error ≠
        (run_cmake_configure (.completed rc out err)).error ∧
      (run_cmake_configure .timedOut).error ≠
        (run_cmake_configure (.fileNotFound m)).error) ∧
    ((run_build .timedOut).success = false ∧
      (run_build .timedOut).error = some "Build timeout" ∧
      (run_build (.completed rc out err)).success = false ∧
      (run_build (.completed rc out err)).error = none ∧
      (run_build (.fileNotFound m)).error = some m ∧
      (run_build .timedOut).error ≠ (run_build (.completed rc out err)).error ∧
      (run_build .timedOut).error ≠ (run_build (.fileNotFound m)).error) := by
  refine ⟨⟨rfl, rfl, ?_, rfl, rfl, by simp [run_cmake_configure], by
    simp [run_cmake_configure]⟩,
    rfl, rfl, ?_, rfl, rfl, by simp [run_build], by
      simp only [run_build, ne_eq, Option.some.injEq]
      exact fun hc => hm hc.symm⟩
  · simp [run_cmake_configure, hrc]
  · simp [run_build, hrc]

/-- Witness for C8 at a concrete nonzero exit code and a concrete
`FileNotFoundError` message. -/
theorem build_timeout_classification_witness :
    (run_cmake_configure (.completed 2 "cfg out" "cfg err")).error = none ∧
      (run_build (.fileNotFound "No such file or directory: cmake")).error =
        some "No such file or directory: cmake" ∧
      (run_build .timedOut).error = some "Build timeout" :=
  have h := build_timeout_classification 2 "cfg out" "cfg err"
    "No such file or directory: cmake" (by decide) (by decide)
  ⟨h.1.2.2.2.1, h.2.2.2.2.2.1, h.2.2.1⟩

/-- Helper: the accumulating loop of `_parse_coverage_data` computes
the sums of per-unit counts and reconstructed covered lines. -/
theorem covStep_foldl (ls : List (List Char)) : ∀ (a b : ℕ),
    ls.foldl covStep (a, b) =
      (a + ((ls.filterMap lineUnit).map CovUnit.count).sum,
        b + ((ls.filterMap lineUnit).map
          (fun u => (Int.floor ((u.count : ℚ) * u.percent / 100)).toNat)).sum) := by
  induction ls with
  | nil => intro a b; simp
  | cons hd tl ih =>
    intro a b
    simp only [List.foldl_cons, List.filterMap_cons]
    cases h : lineUnit hd with
    | none => simp [covStep, h, ih]
    | some u => simp [covStep, h, ih, Nat.add_assoc]

/-- Helper: closed form of the aggregate line coverage. -/
theorem line_coverage_formula (s : String) :
    (parse_coverage_data s).line_coverage =
      if 0 < totalLines s then
        100 * ((coveredLines s : ℚ) / (totalLines s : ℚ))
      else 0 := by
  by_cases hs : s.data = []
  · have hu : parsedUnits s = [] := by
      simp [parsedUnits, hs, splitLines]
      rfl
    simp [parse_coverage_data, hs, totalLines, hu, baseReport]
  · have hne : s.data.isEmpty = false := by simpa [List.isEmpty_iff] using hs
    simp only [parse_coverage_data, hne, Bool.false_eq_true, if_false]
    rw [covStep_foldl]
    simp only [Nat.zero_add]
    have ht : totalLines s =
        (((splitLines s.data).filterMap lineUnit).map CovUnit.count).sum := rfl
    have hc : coveredLines s =
        (((splitLines s.data).filterMap lineUnit).map
          (fun u => (Int.floor ((u.count : ℚ) * u.percent / 100)).toNat)).sum := rfl
    rw [← ht, ← hc]
    split
    · exact mul_comm _ _
    · rfl

/-- C1: the aggregate line coverage returned by
`CoverageAnalyzer._parse_coverage_data` is 100 times the ratio of the
sum over parsed units of `floor (N * P / 100)` to the sum of the `N`s
(0 when the total is 0); in particular the two-unit report
`50.0% of 10` and `100.0% of 4` yields `100 * (5 + 4) / 14`. -/
theorem coverage_aggregate_weighted_average :
    (∀ s : String, (parse_coverage_data s).line_coverage =
        if 0 < totalLines s then
          100 * ((coveredLines s : ℚ) / (totalLines s : ℚ))
        else 0) ∧
      totalLines "Lines executed:50.0% of 10\nLines executed:100.0% of 4" = 14 ∧
      coveredLines "Lines executed:50.0% of 10\nLines executed:100.0% of 4" = 5 + 4 ∧
      (parse_coverage_data
          "Lines executed:50.0% of 10\nLines executed:100.0% of 4").line_coverage =
        100 * (((5 : ℚ) + 4) / 14) := by
  have hu : parsedUnits "Lines executed:50.0% of 10\nLines executed:100.0% of 4" =
      [⟨500, 1, 10⟩, ⟨1000, 1, 4⟩] := by decide
  have ht : totalLines "Lines executed:50.0% of 10\nLines executed:100.0% of 4" = 14 := by
    simp [totalLines, hu]
  have hf1 : (Int.floor (((10 : ℕ) : ℚ) * CovUnit.percent ⟨500, 1, 10⟩ / 100)).toNat = 5 := by
    have : ((10 : ℕ) : ℚ) * CovUnit.percent ⟨500, 1, 10⟩ / 100 = ((5 : ℤ) : ℚ) := by
      simp [CovUnit.percent]; norm_num
    rw [this, Int.floor_intCast]
    rfl
  have hf2 : (Int.floor (((4 : ℕ) : ℚ) * CovUnit.percent ⟨1000, 1, 4⟩ / 100)).toNat = 4 := by
    have : ((4 : ℕ) : ℚ) * CovUnit.percent ⟨1000, 1, 4⟩ / 100 = ((4 : ℤ) : ℚ) := by
      simp [CovUnit.percent]; norm_num
    rw [this, Int.floor_intCast]
    rfl
  have hc : coveredLines "Lines executed:50.0% of 10\nLines executed:100.0% of 4" = 5 + 4 := by
    simp only [coveredLines, hu, List.map_cons, List.map_nil, List.sum_cons,
      List.sum_nil, Nat.add_zero]
    rw [hf1, hf2]
  refine ⟨line_coverage_formula, ht, hc, ?_⟩
  rw [line_coverage_formula, ht, hc]
  norm_num

/-- C6 counterexample: the claim's range invariant is quantified over
every input, but the parser applies no sanity bound to the reported
percentage: a (malformed) gcov report claiming 200% yields an aggregate
line coverage of 200, outside [0, 100]. -/
theorem coverage_range_violation_cex :
    (analyze true "Lines executed:200.0% of 10").line_coverage = 200 ∧
      ¬ (analyze true "Lines executed:200.0% of 10").line_coverage ≤ 100 := by
  have hu : parsedUnits "Lines executed:200.0% of 10" = [⟨2000, 1, 10⟩] := by decide
  have ha : analyze true "Lines executed:200.0% of 10" =
      parse_coverage_data "Lines executed:200.0% of 10" := rfl
  have ht : totalLines "Lines executed:200.0% of 10" = 10 := by simp [totalLines, hu]
  have hf : (Int.floor (((10 : ℕ) : ℚ) * CovUnit.percent ⟨2000, 1, 10⟩ / 100)).toNat = 20 := by
    have : ((10 : ℕ) : ℚ) * CovUnit.percent ⟨2000, 1, 10⟩ / 100 = ((20 : ℤ) : ℚ) := by
      simp [CovUnit.percent]; norm_num
    rw [this, Int.floor_intCast]
    rfl
  have hc : coveredLines "Lines executed:200.0% of 10" = 20 := by
    simp only [coveredLines, hu, List.map_cons, List.map_nil, List.sum_cons,
      List.sum_nil, Nat.add_zero]
    rw [hf]
  have hl : (analyze true "Lines executed:200.0% of 10").line_coverage = 200 := by
    rw [ha, line_coverage_formula, ht, hc]
    norm_num
  exact ⟨hl, by rw [hl]; norm_num⟩

/-- Helper for C6: when every parsed unit reports at most 100%, the
reconstructed covered-line total is at most the line total. -/
theorem coveredLines_le_totalLines (out : String)
    (hp : ∀ u ∈ parsedUnits out, CovUnit.percent u ≤ 100) :
    coveredLines out ≤ totalLines out := by
  unfold coveredLines totalLines
  apply List.sum_le_sum
  intro u hu
  have hp1 := hp u hu
  have hx : ((u.count : ℚ) * u.percent / 100) ≤ (u.count : ℚ) := by
    have h1 : (u.count : ℚ) * u.percent / 100 ≤ (u.count : ℚ) * 100 / 100 := by
      gcongr
    calc (u.count : ℚ) * u.percent / 100 ≤ (u.count : ℚ) * 100 / 100 := h1
      _ = (u.count : ℚ) := by rw [mul_div_assoc]; norm_num
  have hfloor : Int.floor ((u.count : ℚ) * u.percent / 100) ≤ (u.count : ℤ) :=
    calc Int.floor ((u.count : ℚ) * u.percent / 100)
        ≤ Int.floor ((u.count : ℚ)) := Int.floor_mono hx
      _ = (u.count : ℤ) := Int.floor_natCast _
  exact Int.toNat_le.mpr hfloor

/-- C6 (amended): when no instrumentation data exists, `analyze`
returns the zeroed report with the `'No coverage data found'` marker;
every percentage in any returned report is non-negative; and every
percentage is at most 100 provided each parsed unit's reported
percentage is at most 100 (as is the case for genuine gcov output). -/
theorem coverage_report_range (has_coverage_data : Bool) (out : String) :
    (has_coverage_data = false →
      analyze has_coverage_data out = ⟨some "No coverage data found", 0, 0, 0, []⟩) ∧
      (0 ≤ (analyze has_coverage_data out).line_coverage ∧
        0 ≤ (analyze has_coverage_data out).branch_coverage ∧
        0 ≤ (analyze has_coverage_data out).function_coverage) ∧
      ((∀ u ∈ parsedUnits out, CovUnit.percent u ≤ 100) →
        (analyze has_coverage_data out).line_coverage ≤ 100 ∧
          (analyze has_coverage_data out).branch_coverage ≤ 100 ∧
          (analyze has_coverage_data out).function_coverage ≤ 100) := by
  have hbf : (analyze has_coverage_data out).branch_coverage = 0 ∧
      (analyze has_coverage_data out).function_coverage = 0 := by
    cases has_coverage_data with
    | false => simp [analyze]
    | true =>
      simp only [analyze, Bool.not_true, Bool.false_eq_true, if_false]
      simp only [parse_coverage_data]
      split
      · simp [baseReport]
      · split <;> simp [baseReport]
  have hline : (analyze has_coverage_data out).line_coverage =
      if has_coverage_data then (parse_coverage_data out).line_coverage else 0 := by
    cases has_coverage_data <;> simp [analyze]
  refine ⟨?_, ⟨?_, ?_, ?_⟩, ?_⟩
  · intro h; subst h; rfl
  · rw [hline]
    split
    · rw [line_coverage_formula]
      split
      · positivity
      · norm_num
    · norm_num
  · simp [hbf.1]
  · simp [hbf.2]
  · intro hp
    refine ⟨?_, by simp [hbf.1], by simp [hbf.2]⟩
    rw [hline]
    split
    · rw [line_coverage_formula]
      split
      · rename_i htpos
        have hct := coveredLines_le_totalLines out hp
        have h1 : ((coveredLines out : ℚ) / (totalLines out : ℚ)) ≤ 1 := by
          rw [div_le_one (by exact_mod_cast htpos)]
          exact_mod_cast hct
        calc 100 * ((coveredLines out : ℚ) / (totalLines out : ℚ))
            ≤ 100 * 1 := by
              apply mul_le_mul_of_nonneg_left h1 (by norm_num)
          _ = 100 := by norm_num
      · norm_num
    · norm_num

/-- Witness for the amended C6: the no-data marker on concrete input,
and bounds at a genuine-looking report. -/
theorem coverage_report_range_witness :
    analyze false "whatever" = ⟨some "No coverage data found", 0, 0, 0, []⟩ ∧
      (analyze true "Lines executed:50.0% of 10").line_coverage ≤ 100 ∧
      0 ≤ (analyze true "Lines executed:50.0% of 10").line_coverage := by
  have hu : parsedUnits "Lines executed:50.0% of 10" = [⟨500, 1, 10⟩] := by decide
  have hp : ∀ u ∈ parsedUnits "Lines executed:50.0% of 10", CovUnit.percent u ≤ 100 := by
    rw [hu]
    intro u hu1
    simp only [List.mem_singleton] at hu1
    subst hu1
    simp only [CovUnit.percent]
    norm_num
  exact ⟨(coverage_report_range false "whatever").1 rfl,
    ((coverage_report_range true "Lines executed:50.0% of 10").2.2 hp).1,
    (coverage_report_range true "Lines executed:50.0% of 10").2.1.1⟩

/-- Helper for C7: everything catalogued under an excluded ancestor is
marked excluded. -/
theorem catFiles_true_excluded : ∀ (base : String) (es : List Entry),
    ∀ e ∈ catFiles base true es, e.excluded = true
  | _, [] => by simp [catFiles]
  | base, .file n :: rest => by
    intro e he
    simp only [catFiles, List.mem_cons] at he
    rcases he with h | h
    · subst h; rfl
    · exact catFiles_true_excluded base rest e h
  | base, .dir n cs :: rest => by
    intro e he
    simp only [catFiles, Bool.true_or, List.mem_append] at he
    rcases he with h | h
    · exact catFiles_true_excluded (base ++ "/" ++ n) cs e h
    · exact catFiles_true_excluded base rest e h

/-- Helper for C7: the collection loop gathers exactly the catalogued
files with a recognized suffix and no excluded ancestor. -/
theorem collectCpp_eq : ∀ (base : String) (es : List Entry),
    collectCpp base es = (catFiles base false es).filterMap wantedPath
  | _, [] => by simp [collectCpp, catFiles]
  | base, .file n :: rest => by
    simp only [collectCpp, catFiles, List.filterMap_cons]
    rw [collectCpp_eq base rest]
    by_cases h : isCppFile n
    · simp [wantedPath, h]
    · simp [wantedPath, h]
  | base, .dir n cs :: rest => by
    simp only [collectCpp, catFiles, List.filterMap_append]
    rw [collectCpp_eq base rest]
    by_cases h : n ∈ excludedDirs
    · have hx : (catFiles (base ++ "/" ++ n) true cs).filterMap wantedPath = [] := by
        rw [List.filterMap_eq_nil_iff]
        intro e he
        have he2 : e.excluded = true :=
          catFiles_true_excluded (base ++ "/" ++ n) cs e he
        simp [wantedPath, he2]
      simp [h, hx]
    · rw [collectCpp_eq (base ++ "/" ++ n) cs]
      simp [h]

/-- Helper for C7: length of the wanted-path projection as a count. -/
theorem length_filterMap_wanted (l : List CatEntry) :
    (l.filterMap wantedPath).length =
      l.countP (fun e => !e.excluded && isCppFile e.fname) := by
  induction l with
  | nil => rfl
  | cons e rest ih =>
    simp only [List.filterMap_cons, List.countP_cons]
    by_cases h : e.excluded = false ∧ isCppFile e.fname
    · have hb : (!e.excluded && isCppFile e.fname) = true := by
        simp [h.1, h.2]
      simp [wantedPath, h, hb, ih]
    · have hb : (!e.excluded && isCppFile e.fname) = false := by
        rcases Decidable.not_and_iff_or_not.mp h with h1 | h1
        · simp only [Bool.not_eq_false] at h1
          simp [h1]
        · simp [Bool.eq_false_iff.mpr h1]
      simp [wantedPath, h, hb, ih]

/-- C7: `CppAnalyzer.find_cpp_files` returns a permutation of exactly
the catalogued files whose suffix is a recognized C++ extension and
which lie under no excluded directory name; the result is sorted, its
length is the number of such files, and every returned path comes from
a non-excluded recognized file. -/
theorem find_cpp_files_spec (directory : String) (tree : List Entry) :
    (find_cpp_files directory tree).Perm
        ((catFiles directory false tree).filterMap wantedPath) ∧
      List.Sorted (· ≤ ·) (find_cpp_files directory tree) ∧
      (find_cpp_files directory tree).length =
        (catFiles directory false tree).countP
          (fun e => !e.excluded && isCppFile e.fname) ∧
      (∀ p ∈ find_cpp_files directory tree,
        ∃ e ∈ catFiles directory false tree,
          e.excluded = false ∧ isCppFile e.fname = true ∧ e.path = p) := by
  have hperm : (find_cpp_files directory tree).Perm
      ((catFiles directory false tree).filterMap wantedPath) := by
    unfold find_cpp_files
    rw [collectCpp_eq]
    exact List.mergeSort_perm _ _
  have hsorted : List.Sorted (· ≤ ·) (find_cpp_files directory tree) := by
    unfold find_cpp_files
    have hp := @List.sorted_mergeSort String (fun a b => decide (a ≤ b))
      (fun a b c hab hbc => by
        simp only [decide_eq_true_eq] at *
        exact le_trans hab hbc)
      (fun a b => by
        simp only [← Bool.decide_or, decide_eq_true_eq]
        exact le_total a b)
      (collectCpp directory tree)
    exact hp.imp (fun h => by simpa using h)
  refine ⟨hperm, hsorted, ?_, ?_⟩
  · rw [hperm.length_eq, length_filterMap_wanted]
  · intro p hp
    have hmem : p ∈ (catFiles directory false tree).filterMap wantedPath :=
      hperm.subset hp
    rw [List.mem_filterMap] at hmem
    obtain ⟨e, he, hw⟩ := hmem
    refine ⟨e, he, ?_⟩
    by_cases h : e.excluded = false ∧ isCppFile e.fname
    · simp only [wantedPath, h, if_true] at hw
      exact ⟨h.1, h.2, Option.some.injEq _ _ ▸ hw⟩
    · simp [wantedPath, h] at hw

/-- Witness for C7 at a concrete tree: the returned path
`proj/src/a.cpp` is a recognized, non-excluded catalogued file. -/
theorem find_cpp_files_spec_witness :
    ∃ e ∈ catFiles "proj" false
        [.file "b.cpp", .dir "build" [.file "a.cpp"], .file "notes.txt",
          .dir "src" [.file "a.cpp", .file "z.cc"]],
      e.excluded = false ∧ isCppFile e.fname = true ∧ e.path = "proj/src/a.cpp" := by
  have h := find_cpp_files_spec "proj"
    [.file "b.cpp", .dir "build" [.file "a.cpp"], .file "notes.txt",
      .dir "src" [.file "a.cpp", .file "z.cc"]]
  apply h.2.2.2 "proj/src/a.cpp"
  apply h.1.mem_iff.mpr
  have hcat : catFiles "proj" false
      [.file "b.cpp", .dir "build" [.file "a.cpp"], .file "notes.txt",
        .dir "src" [.file "a.cpp", .file "z.cc"]] =
      [⟨"proj/b.cpp", "b.cpp", false⟩, ⟨"proj/build/a.cpp", "a.cpp", true⟩,
        ⟨"proj/notes.txt", "notes.txt", false⟩, ⟨"proj/src/a.cpp", "a.cpp", false⟩,
        ⟨"proj/src/z.cc", "z.cc", false⟩] := by
    simp [catFiles]
    decide
  rw [hcat]
  decide

/-- Helper for C5: substring containment characterised by suffixes. -/
theorem containsSub_iff (l pat : List Char) :
    containsSub l pat = true ↔ ∃ u, u <:+ l ∧ pat.isPrefixOf u = true := by
  induction l with
  | nil =>
    simp only [containsSub, Bool.or_false]
    constructor
    · intro h; exact ⟨[], List.nil_suffix, h⟩
    · rintro ⟨u, hu, hp⟩
      have hu0 : u = [] := List.suffix_nil.mp hu
      subst hu0; exact hp
  | cons a r ih =>
    simp only [containsSub, Bool.or_eq_true]
    constructor
    · rintro (h | h)
      · exact ⟨a :: r, List.suffix_refl _, h⟩
      · obtain ⟨u, hu, hp⟩ := ih.mp h
        exact ⟨u, hu.trans (List.suffix_cons a r), hp⟩
    · rintro ⟨u, hu, hp⟩
      rcases List.suffix_cons_iff.mp hu with h | h
      · subst h; exact Or.inl hp
      · exact Or.inr (ih.mpr ⟨u, h, hp⟩)

/-- Helper for C5: if three backticks start `pre ++ rest` then either
they already start `pre`, or `pre` is one or two characters ending in a
backtick. -/
theorem ticks_prefix_cases (pre rest : List Char)
    (hp : ticks3.isPrefixOf (pre ++ rest) = true) (hne : pre ≠ []) :
    ticks3.isPrefixOf pre = true ∨ pre.getLast? = some backtick := by
  cases pre with
  | nil => exact absurd rfl hne
  | cons a p1 =>
    cases p1 with
    | nil =>
      right
      simp only [List.cons_append, List.nil_append, ticks3, List.isPrefixOf,
        Bool.and_eq_true, beq_iff_eq] at hp
      simp [← hp.1]
    | cons b p2 =>
      cases p2 with
      | nil =>
        right
        simp only [List.cons_append, List.nil_append, ticks3, List.isPrefixOf,
          Bool.and_eq_true, beq_iff_eq] at hp
        simp [← hp.2.1]
      | cons c p3 =>
        left
        simp only [List.cons_append, ticks3, List.isPrefixOf, Bool.and_eq_true,
          beq_iff_eq] at hp ⊢
        exact ⟨hp.1, hp.2.1, hp.2.2.1, trivial⟩

/-- Helper for C5: scanning skips a block of text that contains no
triple backtick and does not end in a backtick. -/
theorem fencedSearch_append (pre rest : List Char)
    (h1 : containsSub pre ticks3 = false) (h2 : pre.getLast? ≠ some backtick) :
    fencedSearch (pre ++ rest) = fencedSearch rest := by
  induction pre with
  | nil => rfl
  | cons a p ih =>
    have hnp : ticks3.isPrefixOf ((a :: p) ++ rest) = false := by
      by_contra hc
      rw [Bool.not_eq_false] at hc
      rcases ticks_prefix_cases (a :: p) rest hc (by simp) with h | h
      · rw [show containsSub (a :: p) ticks3 =
            (ticks3.isPrefixOf (a :: p) || containsSub p ticks3) from rfl, h] at h1
        simp at h1
      · exact h2 h
    have hm : fencedMatchAt ((a :: p) ++ rest) = none := by
      unfold fencedMatchAt
      rw [hnp]
      simp
    have h1p : containsSub p ticks3 = false := by
      rw [show containsSub (a :: p) ticks3 =
          (ticks3.isPrefixOf (a :: p) || containsSub p ticks3) from rfl] at h1
      exact (Bool.or_eq_false_iff.mp h1).2
    have h2p : p.getLast? ≠ some backtick := by
      cases p with
      | nil => simp
      | cons b q => rw [← @List.getLast?_cons_cons Char a b q]; exact h2
    calc fencedSearch ((a :: p) ++ rest)
        = fencedSearch (p ++ rest) := by
          rw [List.cons_append]
          rw [show fencedSearch (a :: (p ++ rest)) =
            (match fencedMatchAt (a :: (p ++ rest)) with
              | some cap => some cap
              | none => fencedSearch (p ++ rest)) from rfl]
          rw [List.cons_append] at hm
          rw [hm]
      _ = fencedSearch rest := ih h1p h2p

/-- Helper for C5: no triple backtick anywhere means no match at all. -/
theorem fencedSearch_none (cs : List Char) (h : containsSub cs ticks3 = false) :
    fencedSearch cs = none := by
  induction cs with
  | nil => rfl
  | cons a r ih =>
    rw [show containsSub (a :: r) ticks3 =
        (ticks3.isPrefixOf (a :: r) || containsSub r ticks3) from rfl,
      Bool.or_eq_false_iff] at h
    have hm : fencedMatchAt (a :: r) = none := by
      unfold fencedMatchAt
      rw [h.1]
      simp
    rw [show fencedSearch (a :: r) =
      (match fencedMatchAt (a :: r) with
        | some cap => some cap
        | none => fencedSearch r) from rfl, hm]
    exact ih h.2

/-- Helper for C5: `rstrip` is empty iff everything is whitespace. -/
theorem rstrip_eq_nil_iff (l : List Char) :
    rstrip l = [] ↔ ∀ c ∈ l, pyWs c = true := by
  induction l with
  | nil => simp [rstrip]
  | cons a r ih =>
    constructor
    · intro h c hc
      rw [show rstrip (a :: r) = (match rstrip r with
        | [] => if pyWs a then [] else [a]
        | x :: t => a :: x :: t) from rfl] at h
      cases hr : rstrip r with
      | nil =>
        rw [hr] at h
        by_cases hw : pyWs a
        · rcases List.mem_cons.mp hc with hca | hc2
          · rw [hca]; exact hw
          · exact ih.mp hr c hc2
        · simp [hw] at h
      | cons x t => rw [hr] at h; simp at h
    · intro h
      have hr : rstrip r = [] := ih.mpr (fun c hc => h c (List.mem_cons_of_mem a hc))
      rw [show rstrip (a :: r) = (match rstrip r with
        | [] => if pyWs a then [] else [a]
        | x :: t => a :: x :: t) from rfl, hr]
      simp [h a (List.mem_cons_self a r)]

/-- Helper for C5: `rstrip` is idempotent. -/
theorem rstrip_idem (l : List Char) : rstrip (rstrip l) = rstrip l := by
  induction l with
  | nil => rfl
  | cons a r ih =>
    rw [show rstrip (a :: r) = (match rstrip r with
      | [] => if pyWs a then [] else [a]
      | x :: t => a :: x :: t) from rfl]
    cases hr : rstrip r with
    | nil =>
      by_cases hw : pyWs a
      · simp [hw, rstrip]
      · simp [hw, rstrip]
    | cons x t =>
      rw [show rstrip (a :: x :: t) = (match rstrip (x :: t) with
        | [] => if pyWs a then [] else [a]
        | y :: u => a :: y :: u) from rfl]
      have h2 : rstrip (x :: t) = x :: t := hr ▸ ih
      rw [h2]

/-- Helper for C5: `rstrip` keeps the head or empties the list. -/
theorem rstrip_cons_cases (a : Char) (r : List Char) :
    rstrip (a :: r) = [] ∨ ∃ t, rstrip (a :: r) = a :: t := by
  rw [show rstrip (a :: r) = (match rstrip r with
    | [] => if pyWs a then [] else [a]
    | x :: t => a :: x :: t) from rfl]
  cases rstrip r with
  | nil =>
    by_cases hw : pyWs a
    · left; simp [hw]
    · right; exact ⟨[], by simp [hw]⟩
  | cons x t => right; exact ⟨x :: t, rfl⟩

/-- Helper for C5: the head surviving `dropWhile` fails the predicate. -/
theorem dropWhile_head_false {p : Char → Bool} {l : List Char} {c : Char}
    {r : List Char} (h : l.dropWhile p = c :: r) : p c = false := by
  induction l with
  | nil => simp at h
  | cons a t ih =>
    rw [List.dropWhile_cons] at h
    by_cases hp : p a
    · rw [if_pos hp] at h; exact ih h
    · rw [if_neg hp] at h
      injection h with h1 h2
      rw [← h1]
      simpa using hp

/-- Helper for C5: a nonempty suffix has the same last element. -/
theorem getLast?_of_suffix {u l : List Char} (h : u <:+ l) (hne : u ≠ []) :
    u.getLast? = l.getLast? := by
  obtain ⟨t, rfl⟩ := h
  rw [List.getLast?_append]
  cases hu : u.getLast? with
  | none => exact absurd (List.getLast?_eq_none_iff.mp hu) hne
  | some x => rfl

/-- Helper for C5: `pyStrip` is idempotent. -/
theorem pyStrip_idem (l : List Char) : pyStrip (pyStrip l) = pyStrip l := by
  unfold pyStrip
  cases hy : l.dropWhile pyWs with
  | nil => simp [rstrip]
  | cons c r =>
    have hc : pyWs c = false := dropWhile_head_false hy
    rcases rstrip_cons_cases c r with h | ⟨t, h⟩
    · rw [h]; simp [rstrip]
    · rw [h, List.dropWhile_cons, if_neg (by simp [hc])]
      have h3 := rstrip_idem (c :: r)
      rw [h] at h3
      exact h3

/-- Helper for C5: `rstrip` keeps the head of a list it does not
annihilate. -/
theorem rstrip_cons_of_ne_nil (a : Char) (r : List Char)
    (h : rstrip (a :: r) ≠ []) : rstrip (a :: r) = a :: rstrip r := by
  rw [show rstrip (a :: r) = (match rstrip r with
    | [] => if pyWs a then [] else [a]
    | x :: t => a :: x :: t) from rfl] at h ⊢
  cases hr : rstrip r with
  | nil =>
    rw [hr] at h
    by_cases hw : pyWs a
    · simp [hw] at h
    · simp [hr, hw]
  | cons x t => simp [hr]

/-- Helper for C5: the lazy capture of the fenced-block pattern, run
on `m` followed by a closing fence, stops exactly at the fence and
captures `m` without its trailing whitespace — provided `m` contains no
triple backtick and does not end in a backtick. -/
theorem lazyCapture_block (m post : List Char)
    (h1 : containsSub m ticks3 = false) (h2 : m.getLast? ≠ some backtick) :
    lazyCapture (m ++ (ticks3 ++ post)) = some (rstrip m) := by
  induction m with
  | nil =>
    have hch : closeHere (ticks3 ++ post) = true := by
      unfold closeHere
      rw [show ticks3 ++ post = backtick :: (backtick :: backtick :: post) from rfl,
        List.dropWhile_cons, if_neg (by decide)]
      exact List.isPrefixOf_iff_prefix.mpr (List.prefix_append _ _)
    rw [show ([] : List Char) ++ (ticks3 ++ post) = ticks3 ++ post from rfl]
    unfold lazyCapture
    rw [hch]
    simp [rstrip]
  | cons a m' ih =>
    simp only [List.cons_append]
    have h1' : containsSub m' ticks3 = false := by
      rw [show containsSub (a :: m') ticks3 =
          (ticks3.isPrefixOf (a :: m') || containsSub m' ticks3) from rfl] at h1
      exact (Bool.or_eq_false_iff.mp h1).2
    by_cases hall : rstrip (a :: m') = []
    · have hws : ∀ c ∈ a :: m', pyWs c = true := (rstrip_eq_nil_iff _).mp hall
      have hdw : (a :: (m' ++ (ticks3 ++ post))).dropWhile pyWs = ticks3 ++ post := by
        rw [show a :: (m' ++ (ticks3 ++ post)) = (a :: m') ++ (ticks3 ++ post) from rfl,
          List.dropWhile_append, List.dropWhile_eq_nil_iff.mpr hws]
        simp only [List.isEmpty_nil, if_true]
        rw [show ticks3 ++ post = backtick :: (backtick :: backtick :: post) from rfl,
          List.dropWhile_cons, if_neg (by decide)]
      have hch : closeHere (a :: (m' ++ (ticks3 ++ post))) = true := by
        unfold closeHere
        rw [hdw]
        exact List.isPrefixOf_iff_prefix.mpr (List.prefix_append _ _)
      unfold lazyCapture
      rw [hch, hall]
      simp
    · have hd : (a :: m').dropWhile pyWs ≠ [] := by
        intro hd0
        exact hall ((rstrip_eq_nil_iff _).mpr (List.dropWhile_eq_nil_iff.mp hd0))
      obtain ⟨c, r, hcr⟩ : ∃ c r, (a :: m').dropWhile pyWs = c :: r := by
        cases hx : (a :: m').dropWhile pyWs with
        | nil => exact absurd hx hd
        | cons c r => exact ⟨c, r, rfl⟩
      have hdsuf : (c :: r) <:+ (a :: m') := hcr ▸ List.dropWhile_suffix _
      have hch : closeHere (a :: (m' ++ (ticks3 ++ post))) = false := by
        by_contra hc0
        rw [Bool.not_eq_false] at hc0
        unfold closeHere at hc0
        rw [show a :: (m' ++ (ticks3 ++ post)) = (a :: m') ++ (ticks3 ++ post) from rfl,
          List.dropWhile_append, hcr] at hc0
        simp only [List.isEmpty_cons, if_false, Bool.false_eq_true] at hc0
        rcases ticks_prefix_cases (c :: r) (ticks3 ++ post) hc0 (by simp) with hx | hx
        · have hcc : containsSub (a :: m') ticks3 = true :=
            (containsSub_iff _ _).mpr ⟨c :: r, hdsuf, hx⟩
          rw [hcc] at h1
          simp at h1
        · have hlast := getLast?_of_suffix hdsuf (by simp)
          rw [hx] at hlast
          exact h2 hlast.symm
      have h2' : m'.getLast? ≠ some backtick := by
        cases m' with
        | nil => simp
        | cons b q => rw [← @List.getLast?_cons_cons Char a b q]; exact h2
      have hstep : lazyCapture (a :: (m' ++ (ticks3 ++ post))) =
          (lazyCapture (m' ++ (ticks3 ++ post))).map (fun t => a :: t) := by
        rw [show lazyCapture (a :: (m' ++ (ticks3 ++ post))) =
            (if closeHere (a :: (m' ++ (ticks3 ++ post))) then some []
             else (lazyCapture (m' ++ (ticks3 ++ post))).map (fun t => a :: t))
          from rfl, hch]
        simp
      rw [hstep, ih h1' h2', rstrip_cons_of_ne_nil a m' hall]
      rfl

/-- Helper for C5: running the lazy capture after the leading `\s*` of
the pattern on `mid` plus a closing fence captures exactly the stripped
`mid`. -/
theorem lazyCapture_drop_block (mid post : List Char)
    (h1 : containsSub mid ticks3 = false) (h2 : mid.getLast? ≠ some backtick) :
    lazyCapture ((mid ++ (ticks3 ++ post)).dropWhile pyWs) = some (pyStrip mid) := by
  cases hd : mid.dropWhile pyWs with
  | nil =>
    rw [List.dropWhile_append, hd]
    simp only [List.isEmpty_nil, if_true]
    rw [show ticks3 ++ post = backtick :: (backtick :: backtick :: post) from rfl,
      List.dropWhile_cons, if_neg (by decide)]
    have hlc := lazyCapture_block [] post rfl (by simp)
    rw [List.nil_append] at hlc
    rw [show (backtick :: (backtick :: backtick :: post)) = ticks3 ++ post from rfl, hlc]
    unfold pyStrip
    rw [hd]
  | cons c r =>
    rw [List.dropWhile_append, hd]
    simp only [List.isEmpty_cons, Bool.false_eq_true, if_false]
    have hsuf : (c :: r) <:+ mid := hd ▸ List.dropWhile_suffix _
    have hc1 : containsSub (c :: r) ticks3 = false := by
      cases hx : containsSub (c :: r) ticks3 with
      | false => rfl
      | true =>
        obtain ⟨u, hu, hp⟩ := (containsSub_iff _ _).mp hx
        have hcm : containsSub mid ticks3 = true :=
          (containsSub_iff _ _).mpr ⟨u, hu.trans hsuf, hp⟩
        rw [hcm] at h1
        simp at h1
    have hc2 : (c :: r).getLast? ≠ some backtick := by
      rw [getLast?_of_suffix hsuf (by simp)]
      exact h2
    rw [lazyCapture_block (c :: r) post hc1 hc2]
    unfold pyStrip
    rw [hd]

/-- Helper for C5: the three-character language tags cannot leak into a
block boundary: if the tag is not a prefix of `mid`, it is not a prefix
of `mid` followed by a closing fence either. -/
theorem tag_prefix_block (t mid rest : List Char)
    (ht : t = cppTag ∨ t = cppPlusTag) (hm : t.isPrefixOf mid = false) :
    t.isPrefixOf (mid ++ (ticks3 ++ rest)) = false := by
  have h2 : ∀ y ∈ t.drop 1, (y == backtick) = false := by
    rcases ht with h | h <;> subst h <;> decide
  cases mid with
  | nil =>
    rcases ht with h | h <;> subst h <;>
      simp only [List.nil_append,
        show ticks3 ++ rest = backtick :: (backtick :: backtick :: rest) from rfl,
        cppTag, cppPlusTag, List.isPrefixOf, Bool.and_eq_true, Bool.and_eq_false_iff] <;>
      left <;> decide
  | cons a m1 =>
    cases m1 with
    | nil =>
      rcases ht with h | h <;> subst h <;>
        simp only [List.cons_append, List.nil_append,
          show ticks3 ++ rest = backtick :: (backtick :: backtick :: rest) from rfl,
          cppTag, cppPlusTag, List.isPrefixOf, Bool.and_eq_false_iff] <;>
        right <;> left <;> decide
    | cons b m2 =>
      cases m2 with
      | nil =>
        rcases ht with h | h <;> subst h <;>
          simp only [List.cons_append, List.nil_append,
            show ticks3 ++ rest = backtick :: (backtick :: backtick :: rest) from rfl,
            cppTag, cppPlusTag, List.isPrefixOf, Bool.and_eq_false_iff] <;>
          right <;> right <;> left <;> decide
      | cons c m3 =>
        rcases ht with h | h <;> subst h <;>
          simp only [cppTag, cppPlusTag, List.isPrefixOf, List.cons_append] at hm ⊢ <;>
          simpa using hm

/-- Helper for C5: unfolding the fence matcher past the opening fence. -/
theorem fencedMatchAt_ticks (Y : List Char) :
    fencedMatchAt (ticks3 ++ Y) =
      lazyCapture ((if cppTag.isPrefixOf Y then Y.drop 3
        else if cppPlusTag.isPrefixOf Y then Y.drop 3 else Y).dropWhile pyWs) := by
  have hpre : ticks3.isPrefixOf (ticks3 ++ Y) = true :=
    List.isPrefixOf_iff_prefix.mpr (List.prefix_append _ _)
  unfold fencedMatchAt
  rw [hpre]
  rfl

/-- Helper for C5: the fence matcher, anchored at the opening fence of
a well-formed block, captures the stripped block contents. -/
theorem fencedMatchAt_block (tag mid post : List Char)
    (htag : tag = [] ∨ tag = cppTag ∨ tag = cppPlusTag)
    (htag0 : tag = [] →
      cppTag.isPrefixOf mid = false ∧ cppPlusTag.isPrefixOf mid = false)
    (h1 : containsSub mid ticks3 = false) (h2 : mid.getLast? ≠ some backtick) :
    fencedMatchAt (ticks3 ++ (tag ++ (mid ++ (ticks3 ++ post)))) =
      some (pyStrip mid) := by
  rcases htag with h | h | h <;> subst h
  · rw [List.nil_append, fencedMatchAt_ticks,
      tag_prefix_block _ _ _ (Or.inl rfl) (htag0 rfl).1,
      tag_prefix_block _ _ _ (Or.inr rfl) (htag0 rfl).2]
    simp only [Bool.false_eq_true, if_false]
    exact lazyCapture_drop_block mid post h1 h2
  · rw [fencedMatchAt_ticks,
      List.isPrefixOf_iff_prefix.mpr (List.prefix_append cppTag _)]
    simp only [if_true]
    rw [show (cppTag ++ (mid ++ (ticks3 ++ post))).drop 3 = mid ++ (ticks3 ++ post)
      from rfl]
    exact lazyCapture_drop_block mid post h1 h2
  · have hx : cppTag.isPrefixOf (cppPlusTag ++ (mid ++ (ticks3 ++ post))) = false := by
      simp only [cppTag, cppPlusTag, List.cons_append, List.isPrefixOf]
      rw [show (('p' : Char) == '+') = false from by decide]
      simp
    rw [fencedMatchAt_ticks, hx]
    simp only [Bool.false_eq_true, if_false]
    rw [List.isPrefixOf_iff_prefix.mpr (List.prefix_append cppPlusTag _)]
    simp only [if_true]
    rw [show (cppPlusTag ++ (mid ++ (ticks3 ++ post))).drop 3 = mid ++ (ticks3 ++ post)
      from rfl]
    exact lazyCapture_drop_block mid post h1 h2

/-- C5: `TestGenerator._extract_cpp_code`.  A response containing a
fenced code block — text with no stray triple backtick, an opening
fence optionally tagged `cpp` or `c++`, block contents, a closing
fence, and a tail — yields exactly the stripped block contents; a
response containing no fence at all yields the whole response,
stripped.  (The boundary hypotheses keep the decomposition canonical:
the prefix and contents contain no triple backtick and do not end in a
backtick, and an untagged block's contents do not start with a tag.) -/
theorem extract_cpp_code_spec :
    (∀ s : String, containsSub s.data ticks3 = false →
      extract_cpp_code s = String.mk (pyStrip s.data)) ∧
    (∀ pre tag mid post : List Char,
      (tag = [] ∨ tag = cppTag ∨ tag = cppPlusTag) →
      containsSub pre ticks3 = false → pre.getLast? ≠ some backtick →
      containsSub mid ticks3 = false → mid.getLast? ≠ some backtick →
      (tag = [] →
        cppTag.isPrefixOf mid = false ∧ cppPlusTag.isPrefixOf mid = false) →
      extract_cpp_code
          (String.mk (pre ++ (ticks3 ++ (tag ++ (mid ++ (ticks3 ++ post)))))) =
        String.mk (pyStrip mid)) := by
  constructor
  · intro s hs
    unfold extract_cpp_code
    rw [fencedSearch_none s.data hs]
  · intro pre tag mid post htag hp1 hp2 h1 h2 htag0
    unfold extract_cpp_code
    rw [show (String.mk (pre ++ (ticks3 ++ (tag ++ (mid ++ (ticks3 ++ post)))))).data =
      pre ++ (ticks3 ++ (tag ++ (mid ++ (ticks3 ++ post)))) from rfl]
    rw [fencedSearch_append pre _ hp1 hp2]
    have hsearch : fencedSearch (ticks3 ++ (tag ++ (mid ++ (ticks3 ++ post)))) =
        some (pyStrip mid) := by
      rw [show ticks3 ++ (tag ++ (mid ++ (ticks3 ++ post))) =
        backtick :: (backtick :: backtick :: (tag ++ (mid ++ (ticks3 ++ post))))
        from rfl]
      rw [show fencedSearch
          (backtick :: (backtick :: backtick :: (tag ++ (mid ++ (ticks3 ++ post))))) =
        (match fencedMatchAt
            (backtick :: (backtick :: backtick :: (tag ++ (mid ++ (ticks3 ++ post))))) with
          | some cap => some cap
          | none => fencedSearch
              (backtick :: backtick :: (tag ++ (mid ++ (ticks3 ++ post))))) from rfl]
      rw [show (backtick :: (backtick :: backtick :: (tag ++ (mid ++ (ticks3 ++ post))))) =
        ticks3 ++ (tag ++ (mid ++ (ticks3 ++ post))) from rfl]
      rw [fencedMatchAt_block tag mid post htag htag0 h1 h2]
    rw [hsearch]
    show String.mk (pyStrip (pyStrip mid)) = String.mk (pyStrip mid)
    rw [pyStrip_idem]

/-- Witness for C5: a tagged fenced response and a fence-free one. -/
theorem extract_cpp_code_spec_witness :
    extract_cpp_code "Here:\n```cpp\nint x = 1;\n```\nBye" = "int x = 1;" ∧
      extract_cpp_code "no fence here" = "no fence here" := by
  constructor
  · have h := extract_cpp_code_spec.2 "Here:\n".data cppTag "\nint x = 1;\n".data
      "\nBye".data (Or.inr (Or.inl rfl)) (by decide) (by decide) (by decide)
      (by decide) (fun hx => absurd hx (by decide))
    rw [show ("Here:\n```cpp\nint x = 1;\n```\nBye" : String) =
      String.mk ("Here:\n".data ++ (ticks3 ++ (cppTag ++ ("\nint x = 1;\n".data ++
        (ticks3 ++ "\nBye".data))))) from rfl, h]
    decide
  · have h := extract_cpp_code_spec.1 "no fence here" (by decide)
    rw [h]
    decide
